import Mathlib

/-!
Shallow embedding of `GeneModelFinder.py` (model selector for gene models via
mash sketch distances), together with theorems checking the specification's
claims about its parsing, consistency-check, hit-selection and pipeline logic.

Python strings are embedded as `List Char` (`Str`).  The source keeps every
parsed field as a raw string (the dataclass annotations are not enforced at
runtime), so all record fields below are `Str`.  Fallible operations
(Python exceptions) are embedded as `Except`.
-/

set_option maxRecDepth 4000

open scoped List

instance {ε α : Type} [DecidableEq ε] [DecidableEq α] : DecidableEq (Except ε α) := fun a b =>
  match a, b with
  | .error x, .error y => decidable_of_iff (x = y) (by simp)
  | .error _, .ok _ => isFalse (by simp)
  | .ok _, .error _ => isFalse (by simp)
  | .ok x, .ok y => decidable_of_iff (x = y) (by simp)

abbrev Str := List Char

/-- The ASCII whitespace characters stripped by Python's `str.rstrip()`. -/
def pyWhitespace (c : Char) : Bool :=
  c = ' ' || c = '\t' || c = '\n' || c = '\r' || c = '\x0b' || c = '\x0c'

/-- Python `s.rstrip()`: drop trailing whitespace characters. -/
def pyRstrip (s : Str) : Str :=
  (s.reverse.dropWhile pyWhitespace).reverse

/-- Python `s.split(sep)` for a single-character separator: empty parts are
kept, and splitting the empty string yields one empty part. -/
def splitOnChar (sep : Char) : Str → List Str
  | [] => [[]]
  | c :: cs =>
    if c = sep then [] :: splitOnChar sep cs
    else
      match splitOnChar sep cs with
      | [] => [[c]]
      | r :: rs => (c :: r) :: rs

/-- The `Sketch` dataclass: one record of the `mash info -t` listing.  The source
passes the split fields through unconverted, so every field is a string. -/
structure Sketch where
  hashes : Str
  length : Str
  sketch_id : Str
  comment : Str
deriving DecidableEq, Repr

/-- The `MashHit` dataclass: one record of the `mash dist` listing.  As in the
source, all fields (including `mash_dist`) remain raw strings. -/
structure MashHit where
  ref_id : Str
  query_id : Str
  mash_dist : Str
  p_value : Str
  matching_hashes : Str
  total_hashes : Str
deriving DecidableEq, Repr

/-- Fixed message of the `ValueError` raised by `parse_mash_info`. -/
def infoErrMsg : String := "Mash info output not formatted as expected (tabular format)"

/-- Fixed message of the `ValueError` raised by `parse_mash_dist`. -/
def distErrMsg : String := "Mash dist output not formatted as expected (standard output format)"

/-- One iteration of the `parse_mash_info` loop: unpacking
`row.split("\t")` into four names raises `ValueError` unless the split has
exactly four parts. -/
def parseInfoRow (row : Str) : Except String Sketch :=
  match splitOnChar '\t' row with
  | [hashes, length, sketch_id, comment] => .ok ⟨hashes, length, sketch_id, comment⟩
  | _ => .error infoErrMsg

/-- The `parse_mash_info` loop over the data rows; an exception aborts the
whole parse, discarding records accumulated so far. -/
def parseInfoRows : List Str → Except String (List Sketch)
  | [] => .ok []
  | r :: rs =>
    match parseInfoRow r with
    | .error e => .error e
    | .ok s =>
      match parseInfoRows rs with
      | .error e => .error e
      | .ok rest => .ok (s :: rest)

/-- Embedding of `parse_mash_info`: empty input yields `[]`; otherwise strip trailing
whitespace, split into lines, discard the header line, parse each row. -/
def parse_mash_info (result : Str) : Except String (List Sketch) :=
  if result = [] then .ok []
  else parseInfoRows ((splitOnChar '\n' (pyRstrip result)).drop 1)

/-- One iteration of the `parse_mash_dist` loop: five tab fields, the last of
which must split on `/` into exactly two parts. -/
def parseDistRow (row : Str) : Except String MashHit :=
  match splitOnChar '\t' row with
  | [ref_id, query_id, mash_dist, p_value, hash_ratio] =>
    match splitOnChar '/' hash_ratio with
    | [matching_hashes, total_hashes] =>
      .ok ⟨ref_id, query_id, mash_dist, p_value, matching_hashes, total_hashes⟩
    | _ => .error distErrMsg
  | _ => .error distErrMsg

/-- The `parse_mash_dist` loop over all rows (no header). -/
def parseDistRows : List Str → Except String (List MashHit)
  | [] => .ok []
  | r :: rs =>
    match parseDistRow r with
    | .error e => .error e
    | .ok h =>
      match parseDistRows rs with
      | .error e => .error e
      | .ok rest => .ok (h :: rest)

/-- Embedding of `parse_mash_dist`: empty input yields `[]`; otherwise strip trailing
whitespace, split into lines, parse every line. -/
def parse_mash_dist (result : Str) : Except String (List MashHit) :=
  if result = [] then .ok []
  else parseDistRows (splitOnChar '\n' (pyRstrip result))

/-- Python string `<`: lexicographic comparison by character code. -/
def pyStrLt : Str → Str → Bool
  | [], [] => false
  | [], _ :: _ => true
  | _ :: _, [] => false
  | a :: as, b :: bs => if a < b then true else if b < a then false else pyStrLt as bs

/-- The comparison under which Python's stable `sorted(hits, key=...)` orders
hits: `a` may precede `b` iff `b`'s key is not strictly below `a`'s. -/
def hitLe (a b : MashHit) : Bool := ! pyStrLt b.mash_dist a.mash_dist

/-- Python `sorted(hits, key=lambda hit: hit.mash_dist)`: a stable ascending sort on
the raw `mash_dist` strings. -/
def sortedHits (hits : List MashHit) : List MashHit := hits.mergeSort hitLe

/-- The `standard`-mode loop: walk the tail of the sorted list, appending each
hit whose `mash_dist` equals the previously appended hit's, stopping at the
first that differs. -/
def takeSame (last : MashHit) : List MashHit → List MashHit
  | [] => []
  | h :: t => if h.mash_dist = last.mash_dist then h :: takeSame h t else []

/-- Python slice `l[:n]` for an arbitrary integer `n` (negative `n` counts
from the end). -/
def pySliceTo (l : List α) (n : Int) : List α :=
  if 0 ≤ n then l.take n.toNat else l.take ((l.length : Int) + n).toNat

/-- Embedding of `get_best_hits`: empty input short-circuits to `[]`; `standard` mode keeps
the leading tie group of the sorted list; `best_n` mode slices the first `n`;
any other mode falls off the end of the function, returning Python `None`. -/
def get_best_hits (hits : List MashHit) (mode : String) (n : Int) : Option (List MashHit) :=
  if hits = [] then some []
  else
    let sorted_hits := sortedHits hits
    if mode = "standard" then
      match sorted_hits with
      | [] => some []  -- unreachable: the sorted copy of a non-empty list is non-empty
      | b :: rest => some (b :: takeSame b rest)
    else if mode = "best_n" then
      some (pySliceTo sorted_hits n)
    else none

/-- The `check_models` loop collecting, in supply order, the sketch ids that
have no gene-model entry. -/
def collectMissing (models : List Str) : List Sketch → List Str
  | [] => []
  | s :: rest =>
    if s.sketch_id ∈ models then collectMissing models rest
    else s.sketch_id :: collectMissing models rest

/-- The `FileNotFoundError` message built by `check_models`. -/
def missingMsg (models_path : Str) (shown : List Str) : Str :=
  "For the following references, no gene model was found in ".toList ++ models_path
    ++ " (showing the first 10): \n".toList ++ List.intercalate ['\n'] shown

/-- Embedding of `check_models`, after its two external collaborators (directory listing
and `mash info`) have produced `models` and `sketches`: raise
`FileNotFoundError` naming the first 10 missing ids iff any id is missing. -/
def check_models (models_path : Str) (models : List Str) (sketches : List Sketch) :
    Except Str Unit :=
  let missing_ids := collectMissing models sketches
  if missing_ids = [] then .ok ()
  else .error (missingMsg models_path (missing_ids.take 10))

/-- Outcome of one external `mash` subprocess invocation: its stdout on a
zero exit, or the exit code and captured stderr otherwise. -/
inductive ToolOutcome
  | ok (stdout : Str)
  | fail (returncode : Int) (stderr : Str)

/-- The exception kinds raised by the pipeline: `RuntimeError` from a tool
wrapper, `ValueError` from a parser, `FileNotFoundError` from `check_models`. -/
inductive PipeErr
  | toolFail (msg : Str)
  | badFmt (msg : String)
  | missingModel (msg : Str)
deriving DecidableEq, Repr

/-- Observable pipeline actions: running each external tool, and emitting
hit rows to standard output. -/
inductive Event
  | mashInfo
  | mashDist
  | emit (lines : List Str)
deriving DecidableEq, Repr

/-- The `RuntimeError` message wrapping a failed `mash` invocation. -/
def toolErrMsg (tool : String) (returncode : Int) (stderr : Str) : Str :=
  ("Mash " ++ tool ++ " returned non-zero exit status " ++ toString returncode
    ++ ".\nCaptured stderr: ").toList ++ stderr

/-- Behavior of `run_mash_info` given the subprocess outcome: wrap a non-zero exit in
`RuntimeError`, otherwise parse the captured stdout. -/
def run_mash_info (outcome : ToolOutcome) : Except PipeErr (List Sketch) :=
  match outcome with
  | .fail rc err => .error (.toolFail (toolErrMsg "info" rc err))
  | .ok out =>
    match parse_mash_info out with
    | .error m => .error (.badFmt m)
    | .ok sketches => .ok sketches

/-- Behavior of `run_mash_dist` given the subprocess outcome. -/
def run_mash_dist (outcome : ToolOutcome) : Except PipeErr (List MashHit) :=
  match outcome with
  | .fail rc err => .error (.toolFail (toolErrMsg "dist" rc err))
  | .ok out =>
    match parse_mash_dist out with
    | .error m => .error (.badFmt m)
    | .ok hits => .ok hits

/-- The lines printed by `write_hits`: a header row, then one tab-joined row
per hit with the hash ratio re-joined by `/`.  `write_hits` prints nothing
when `best_hits` is `None` or empty. -/
def writeHitsLines (best_hits : List MashHit) : List Str :=
  "Hit\tMash_distance\tMatching hashes\tp value".toList ::
    best_hits.map (fun h =>
      List.intercalate ['\t']
        [h.ref_id, h.mash_dist, h.matching_hashes ++ ['/'] ++ h.total_hashes, h.p_value])

/-- The optional consistency-check step of `select_models`: when `check` is
set, run `mash info`, parse it, and run `check_models`; the first exception
(tool failure, format error, or missing model) propagates unchanged. -/
def checkStepRun (check : Bool) (models_path : Str) (models : List Str)
    (infoOutcome : ToolOutcome) : Except PipeErr Unit :=
  if check then
    match run_mash_info infoOutcome with
    | .error e => .error e
    | .ok sketches =>
      match check_models models_path models sketches with
      | .error m => .error (.missingModel m)
      | .ok () => .ok ()
  else .ok ()

/-- The distance phase of `select_models`: run `mash dist`, select the best
hits, and have `write_hits` emit rows (it prints nothing for `None` or an
empty selection). -/
def distPhase (distOutcome : ToolOutcome) (mode : String) (n : Int) :
    List Event × Except PipeErr Unit :=
  match run_mash_dist distOutcome with
  | .error e => ([.mashDist], .error e)
  | .ok hits =>
    match get_best_hits hits mode n with
    | none => ([.mashDist], .ok ())
    | some [] => ([.mashDist], .ok ())
    | some best_hits => ([.mashDist, .emit (writeHitsLines best_hits)], .ok ())

/-- Embedding of `select_models`, with the external collaborators (directory listing and
the two subprocess invocations) supplied as inputs.  Returns the trace of
observable events together with the final outcome; an exception propagates
unchanged and cuts the sequence short. -/
def select_models (check : Bool) (models_path : Str) (models : List Str)
    (infoOutcome : ToolOutcome) (distOutcome : ToolOutcome)
    (mode : String) (n : Int) : List Event × Except PipeErr Unit :=
  let checkEvents : List Event := if check then [.mashInfo] else []
  match checkStepRun check models_path models infoOutcome with
  | .error e => (checkEvents, .error e)
  | .ok () =>
    let d := distPhase distOutcome mode n
    (checkEvents ++ d.1, d.2)

/-- Python `sep.join(parts)` for a single-character separator. -/
def joinWithChar (sep : Char) : List Str → Str
  | [] => []
  | [p] => p
  | p :: q :: rest => p ++ sep :: joinWithChar sep (q :: rest)

/-- A data line of the sketch listing, as `mash info -t` would print it. -/
def infoLine (s : Sketch) : Str :=
  joinWithChar '\t' [s.hashes, s.length, s.sketch_id, s.comment]

/-- A data line of the distance listing, as `mash dist` would print it. -/
def distLine (h : MashHit) : Str :=
  joinWithChar '\t'
    [h.ref_id, h.query_id, h.mash_dist, h.p_value, h.matching_hashes ++ '/' :: h.total_hashes]

/-- A line whose tab-split does not have exactly 4 fields: `parse_mash_info`
rejects it. -/
def infoRowBad (row : Str) : Bool := (splitOnChar '\t' row).length ≠ 4

/-- A line whose tab-split does not have exactly 5 fields, or whose fifth
field does not split on `/` into exactly 2 parts: `parse_mash_dist` rejects
it. -/
def distRowBad (row : Str) : Bool :=
  match splitOnChar '\t' row with
  | [_, _, _, _, ratio] => (splitOnChar '/' ratio).length ≠ 2
  | _ => true

/-- Fields of a `Sketch` used as a row descriptor are well-formed when they
contain no tab and no newline. -/
def sketchFieldsOk (s : Sketch) : Prop :=
  ('\t' ∉ s.hashes ∧ '\t' ∉ s.length ∧ '\t' ∉ s.sketch_id ∧ '\t' ∉ s.comment) ∧
  ('\n' ∉ s.hashes ∧ '\n' ∉ s.length ∧ '\n' ∉ s.sketch_id ∧ '\n' ∉ s.comment)

instance (s : Sketch) : Decidable (sketchFieldsOk s) := by
  unfold sketchFieldsOk
  infer_instance

/-- Fields of a `MashHit` used as a row descriptor are well-formed when they
contain no tab and no newline, and the two hash counts contain no slash. -/
def hitFieldsOk (h : MashHit) : Prop :=
  ('\t' ∉ h.ref_id ∧ '\t' ∉ h.query_id ∧ '\t' ∉ h.mash_dist ∧ '\t' ∉ h.p_value ∧
    '\t' ∉ h.matching_hashes ∧ '\t' ∉ h.total_hashes) ∧
  ('\n' ∉ h.ref_id ∧ '\n' ∉ h.query_id ∧ '\n' ∉ h.mash_dist ∧ '\n' ∉ h.p_value ∧
    '\n' ∉ h.matching_hashes ∧ '\n' ∉ h.total_hashes) ∧
  ('/' ∉ h.matching_hashes ∧ '/' ∉ h.total_hashes)

instance (h : MashHit) : Decidable (hitFieldsOk h) := by
  unfold hitFieldsOk
  infer_instance

/-- Example hits mirroring the spec's Standard-mode example: distances
`[0.1, 0.1, 0.2]` in input order. -/
def hitA : MashHit :=
  ⟨"refA".toList, "query".toList, "0.1".toList, "0.01".toList, "900".toList, "1000".toList⟩

def hitB : MashHit :=
  ⟨"refB".toList, "query".toList, "0.1".toList, "0.02".toList, "880".toList, "1000".toList⟩

def hitC : MashHit :=
  ⟨"refC".toList, "query".toList, "0.2".toList, "0.03".toList, "700".toList, "1000".toList⟩

/-- The raw text of a sketch listing built from a header line and one line
per record. -/
def infoText (header : Str) (rows : List Sketch) : Str :=
  joinWithChar '\n' (header :: rows.map infoLine)

/-- The raw text of a distance listing built from one line per record. -/
def distText (rows : List MashHit) : Str :=
  joinWithChar '\n' (rows.map distLine)

theorem splitOnChar_ne_nil (sep : Char) (s : Str) : splitOnChar sep s ≠ [] := by
  induction s with
  | nil => simp [splitOnChar]
  | cons c cs ih =>
    rw [splitOnChar]
    split
    · simp
    · cases h : splitOnChar sep cs <;> simp

theorem splitOnChar_of_not_mem {sep : Char} {s : Str} (h : sep ∉ s) :
    splitOnChar sep s = [s] := by
  induction s with
  | nil => rfl
  | cons c cs ih =>
    simp only [List.mem_cons, not_or] at h
    rw [splitOnChar, if_neg (fun e => h.1 e.symm), ih h.2]

theorem splitOnChar_append_cons {sep : Char} {p t : Str} (h : sep ∉ p) :
    splitOnChar sep (p ++ sep :: t) = p :: splitOnChar sep t := by
  induction p with
  | nil => simp [splitOnChar]
  | cons c cs ih =>
    simp only [List.mem_cons, not_or] at h
    rw [List.cons_append, splitOnChar, if_neg (fun e => h.1 e.symm), ih h.2]

theorem splitOnChar_joinWithChar {sep : Char} {parts : List Str}
    (hne : parts ≠ []) (h : ∀ p ∈ parts, sep ∉ p) :
    splitOnChar sep (joinWithChar sep parts) = parts := by
  induction parts with
  | nil => exact absurd rfl hne
  | cons p rest ih =>
    cases rest with
    | nil => exact splitOnChar_of_not_mem (h p (by simp))
    | cons q rest' =>
      rw [show joinWithChar sep (p :: q :: rest') = p ++ sep :: joinWithChar sep (q :: rest')
            from rfl,
          splitOnChar_append_cons (h p (by simp)),
          ih (by simp) (fun x hx => h x (List.mem_cons_of_mem _ hx))]

theorem mem_joinWithChar {c sep : Char} {parts : List Str}
    (h : c ∈ joinWithChar sep parts) : c = sep ∨ ∃ p ∈ parts, c ∈ p := by
  induction parts with
  | nil => simp [joinWithChar] at h
  | cons p rest ih =>
    cases rest with
    | nil => exact Or.inr ⟨p, by simp, h⟩
    | cons q rest' =>
      rw [show joinWithChar sep (p :: q :: rest') = p ++ sep :: joinWithChar sep (q :: rest')
            from rfl] at h
      rcases List.mem_append.mp h with hp | hrest
      · exact Or.inr ⟨p, by simp, hp⟩
      · rcases List.mem_cons.mp hrest with rfl | hrest'
        · exact Or.inl rfl
        · rcases ih hrest' with hc | ⟨x, hx, hcx⟩
          · exact Or.inl hc
          · exact Or.inr ⟨x, List.mem_cons_of_mem _ hx, hcx⟩

theorem parseInfoRow_err_msg {row : Str} {e : String}
    (h : parseInfoRow row = .error e) : e = infoErrMsg := by
  unfold parseInfoRow at h
  split at h
  · exact absurd h (by simp)
  · injection h with h
    exact h.symm

theorem parseInfoRow_err {row : Str} (h : infoRowBad row = true) :
    parseInfoRow row = .error infoErrMsg := by
  unfold infoRowBad at h
  unfold parseInfoRow
  split
  · rename_i heq
    rw [heq] at h
    simp at h
  · rfl

theorem parseDistRow_err_msg {row : Str} {e : String}
    (h : parseDistRow row = .error e) : e = distErrMsg := by
  unfold parseDistRow at h
  split at h
  · split at h
    · exact absurd h (by simp)
    · injection h with h
      exact h.symm
  · injection h with h
    exact h.symm

theorem parseDistRow_err {row : Str} (h : distRowBad row = true) :
    parseDistRow row = .error distErrMsg := by
  unfold distRowBad at h
  unfold parseDistRow
  split
  · rename_i a b c d ratio heq
    rw [heq] at h
    simp only [decide_eq_true_eq] at h
    split
    · rename_i heq2
      rw [heq2] at h
      simp at h
    · rfl
  · rfl

theorem parseInfoRows_err {rows : List Str}
    (h : ∃ r ∈ rows, infoRowBad r = true) :
    parseInfoRows rows = .error infoErrMsg := by
  induction rows with
  | nil => simp at h
  | cons r rs ih =>
    rw [parseInfoRows]
    rcases h with ⟨x, hx, hbad⟩
    rcases List.mem_cons.mp hx with rfl | hx'
    · rw [parseInfoRow_err hbad]
    · cases hr : parseInfoRow r with
      | error e => rw [parseInfoRow_err_msg hr]
      | ok s => rw [ih ⟨x, hx', hbad⟩]

theorem parseDistRows_err {rows : List Str}
    (h : ∃ r ∈ rows, distRowBad r = true) :
    parseDistRows rows = .error distErrMsg := by
  induction rows with
  | nil => simp at h
  | cons r rs ih =>
    rw [parseDistRows]
    rcases h with ⟨x, hx, hbad⟩
    rcases List.mem_cons.mp hx with rfl | hx'
    · rw [parseDistRow_err hbad]
    · cases hr : parseDistRow r with
      | error e => rw [parseDistRow_err_msg hr]
      | ok s => rw [ih ⟨x, hx', hbad⟩]

theorem parseInfoRow_ok {s : Sketch} (h : sketchFieldsOk s) :
    parseInfoRow (infoLine s) = .ok s := by
  obtain ⟨⟨h1, h2, h3, h4⟩, -⟩ := h
  rw [parseInfoRow, infoLine,
    splitOnChar_joinWithChar (by simp) (by
      intro p hp
      simp only [List.mem_cons, List.not_mem_nil, or_false] at hp
      rcases hp with rfl | rfl | rfl | rfl <;> assumption)]

theorem parseDistRow_ok {h : MashHit} (hok : hitFieldsOk h) :
    parseDistRow (distLine h) = .ok h := by
  obtain ⟨⟨h1, h2, h3, h4, h5, h6⟩, -, h7, h8⟩ := hok
  rw [parseDistRow, distLine,
    splitOnChar_joinWithChar (by simp) (by
      intro p hp
      simp only [List.mem_cons, List.not_mem_nil, or_false] at hp
      rcases hp with rfl | rfl | rfl | rfl | rfl
      · exact h1
      · exact h2
      · exact h3
      · exact h4
      · intro hmem
        rcases List.mem_append.mp hmem with hm | hm
        · exact h5 hm
        · rcases List.mem_cons.mp hm with he | hm'
          · exact absurd he (by decide)
          · exact h6 hm')]
  dsimp only
  rw [splitOnChar_append_cons h7, splitOnChar_of_not_mem h8]

theorem parseInfoRows_ok {rows : List Sketch} (h : ∀ s ∈ rows, sketchFieldsOk s) :
    parseInfoRows (rows.map infoLine) = .ok rows := by
  induction rows with
  | nil => rfl
  | cons s rest ih =>
    rw [List.map_cons, parseInfoRows, parseInfoRow_ok (h s (by simp)),
      ih (fun x hx => h x (List.mem_cons_of_mem _ hx))]

theorem parseDistRows_ok {rows : List MashHit} (h : ∀ x ∈ rows, hitFieldsOk x) :
    parseDistRows (rows.map distLine) = .ok rows := by
  induction rows with
  | nil => rfl
  | cons x rest ih =>
    rw [List.map_cons, parseDistRows, parseDistRow_ok (h x (by simp)),
      ih (fun y hy => h y (List.mem_cons_of_mem _ hy))]

theorem pyStrLt_irrefl (s : Str) : pyStrLt s s = false := by
  induction s with
  | nil => rfl
  | cons c cs ih => simp [pyStrLt, ih]

theorem pyStrLt_asymm : ∀ {a b : Str}, pyStrLt a b = true → pyStrLt b a = false
  | [], [], h => by simp [pyStrLt] at h
  | [], _ :: _, _ => rfl
  | _ :: _, [], h => by simp [pyStrLt] at h
  | x :: xs, y :: ys, h => by
    simp only [pyStrLt] at h ⊢
    by_cases hxy : x < y
    · simp [lt_asymm hxy, hxy]
    · simp only [if_neg hxy] at h
      by_cases hyx : y < x
      · simp [hyx] at h
      · simp only [if_neg hyx, if_neg hxy] at h ⊢
        exact pyStrLt_asymm h

theorem pyStrLt_eq_of_both_not : ∀ {a b : Str},
    pyStrLt a b = false → pyStrLt b a = false → a = b
  | [], [], _, _ => rfl
  | [], _ :: _, h, _ => by simp [pyStrLt] at h
  | _ :: _, [], _, h => by simp [pyStrLt] at h
  | x :: xs, y :: ys, h1, h2 => by
    simp only [pyStrLt] at h1 h2
    by_cases hxy : x < y
    · simp [hxy] at h1
    · by_cases hyx : y < x
      · simp [hyx] at h2
      · simp only [if_neg hxy, if_neg hyx] at h1 h2
        have hx : x = y := le_antisymm (not_lt.mp hyx) (not_lt.mp hxy)
        rw [hx, pyStrLt_eq_of_both_not h1 h2]

theorem pyStrLt_trans : ∀ {a b c : Str},
    pyStrLt a b = true → pyStrLt b c = true → pyStrLt a c = true
  | [], _, _ :: _, _, _ => rfl
  | [], b, [], _, h2 => by cases b <;> simp [pyStrLt] at h2
  | _ :: _, [], _, h1, _ => by simp [pyStrLt] at h1
  | _ :: _, _ :: _, [], _, h2 => by simp [pyStrLt] at h2
  | x :: xs, y :: ys, z :: zs, h1, h2 => by
    simp only [pyStrLt] at h1 h2 ⊢
    by_cases hxy : x < y
    · by_cases hyz : y < z
      · simp [lt_trans hxy hyz]
      · rw [if_neg hyz] at h2
        by_cases hzy : z < y
        · rw [if_pos hzy] at h2
          exact absurd h2 (by simp)
        · have hyez : y = z := le_antisymm (not_lt.mp hzy) (not_lt.mp hyz)
          rw [← hyez]
          simp [hxy]
    · rw [if_neg hxy] at h1
      by_cases hyx : y < x
      · rw [if_pos hyx] at h1
        exact absurd h1 (by simp)
      · rw [if_neg hyx] at h1
        have hxey : x = y := le_antisymm (not_lt.mp hyx) (not_lt.mp hxy)
        by_cases hyz : y < z
        · rw [hxey]
          simp [hyz]
        · rw [if_neg hyz] at h2
          by_cases hzy : z < y
          · rw [if_pos hzy] at h2
            exact absurd h2 (by simp)
          · rw [if_neg hzy] at h2
            have hyez : y = z := le_antisymm (not_lt.mp hzy) (not_lt.mp hyz)
            rw [hxey, hyez]
            simp only [lt_irrefl, if_false]
            exact pyStrLt_trans h1 h2

theorem hitLe_refl (a : MashHit) : hitLe a a = true := by
  simp [hitLe, pyStrLt_irrefl]

theorem hitLe_of_dist_eq {a b : MashHit} (h : a.mash_dist = b.mash_dist) :
    hitLe a b = true := by
  simp [hitLe, h, pyStrLt_irrefl]

theorem hitLe_trans (a b c : MashHit) :
    hitLe a b = true → hitLe b c = true → hitLe a c = true := by
  intro h1 h2
  have h1' : pyStrLt b.mash_dist a.mash_dist = false := by simpa [hitLe] using h1
  have h2' : pyStrLt c.mash_dist b.mash_dist = false := by simpa [hitLe] using h2
  have hs : pyStrLt c.mash_dist a.mash_dist = false := by
    cases hb : pyStrLt c.mash_dist a.mash_dist with
    | false => rfl
    | true =>
      cases hab : pyStrLt a.mash_dist b.mash_dist with
      | true =>
        have hcb := pyStrLt_trans hb hab
        exact absurd hcb (by rw [h2']; simp)
      | false =>
        have heq : a.mash_dist = b.mash_dist := pyStrLt_eq_of_both_not hab h1'
        have hcb : pyStrLt c.mash_dist b.mash_dist = true := heq ▸ hb
        exact absurd hcb (by rw [h2']; simp)
  simp [hitLe, hs]

theorem hitLe_total (a b : MashHit) : (hitLe a b || hitLe b a) = true := by
  simp only [hitLe]
  cases h : pyStrLt b.mash_dist a.mash_dist with
  | false => simp
  | true => simp [pyStrLt_asymm h]

theorem takeSame_eq_takeWhile (last : MashHit) (l : List MashHit) :
    takeSame last l = l.takeWhile (fun x => x.mash_dist = last.mash_dist) := by
  induction l generalizing last with
  | nil => rfl
  | cons h t ih =>
    by_cases hd : h.mash_dist = last.mash_dist
    · rw [takeSame, if_pos hd, ih h, hd]
      simp [List.takeWhile_cons, hd]
    · simp [takeSame, if_neg hd, List.takeWhile_cons, hd]

theorem takeWhile_eq_filter_sorted {l : List MashHit} {d : Str}
    (hp : l.Pairwise (fun a b => hitLe a b = true))
    (hlow : ∀ x ∈ l, pyStrLt x.mash_dist d = false) :
    l.takeWhile (fun x => x.mash_dist = d) = l.filter (fun x => x.mash_dist = d) := by
  induction l with
  | nil => rfl
  | cons h t ih =>
    by_cases hd : h.mash_dist = d
    · have ht := ih hp.tail (fun x hx => hlow x (List.mem_cons_of_mem _ hx))
      simp [List.takeWhile_cons, List.filter_cons, hd, ht]
    · have hlt : pyStrLt d h.mash_dist = true := by
        cases hdh : pyStrLt d h.mash_dist with
        | true => rfl
        | false =>
          exact absurd (pyStrLt_eq_of_both_not hdh (hlow h (by simp)))
            (fun e => hd e.symm)
      have hnone : ∀ x ∈ t, ¬ (x.mash_dist = d) := by
        intro x hx hxd
        have hle : hitLe h x = true := List.rel_of_pairwise_cons hp hx
        have hxh : pyStrLt x.mash_dist h.mash_dist = false := by simpa [hitLe] using hle
        rw [hxd, hlt] at hxh
        simp at hxh
      simp [List.takeWhile_cons, List.filter_cons, hd,
        List.filter_eq_nil_iff.mpr (fun a ha hc => hnone a ha (of_decide_eq_true hc))]

theorem mem_takeWhile_pred {α : Type} (p : α → Bool) :
    ∀ (l : List α) (x : α), x ∈ l.takeWhile p → p x = true
  | [], x, hx => by simp [List.takeWhile] at hx
  | h :: t, x, hx => by
    rw [List.takeWhile_cons] at hx
    by_cases hp : p h = true
    · rw [hp, if_pos rfl] at hx
      rcases List.mem_cons.mp hx with rfl | hx'
      · exact hp
      · exact mem_takeWhile_pred p t x hx'
    · rw [if_neg hp] at hx
      simp at hx

theorem prefix_takeWhile_of_all {α : Type} {p : α → Bool} :
    ∀ {pre l : List α}, pre <+: l → (∀ a ∈ pre, p a = true) → pre <+: l.takeWhile p
  | [], l, _, _ => List.nil_prefix
  | a :: pre', l, hpre, hall => by
    cases l with
    | nil => exact absurd (List.prefix_nil.mp hpre) (by simp)
    | cons b t =>
      obtain ⟨rfl, hp'⟩ := List.cons_prefix_cons.mp hpre
      rw [List.takeWhile_cons, hall a (by simp), if_pos rfl]
      exact List.cons_prefix_cons.mpr
        ⟨rfl, prefix_takeWhile_of_all hp' (fun x hx => hall x (List.mem_cons_of_mem _ hx))⟩

theorem sortedHits_perm (hits : List MashHit) : sortedHits hits ~ hits :=
  List.mergeSort_perm hits hitLe

theorem sortedHits_pairwise (hits : List MashHit) :
    (sortedHits hits).Pairwise (fun a b => hitLe a b = true) :=
  List.sorted_mergeSort hitLe_trans hitLe_total hits

/-- The leading tie group of the sorted sequence is exactly the original list
filtered down to the hits whose distance equals the minimum, in input order:
this is where stability of the sort matters. -/
theorem standard_result_eq_filter {hits : List MashHit} {b : MashHit} {rest : List MashHit}
    (hsort : sortedHits hits = b :: rest) :
    b :: takeSame b rest = hits.filter (fun x => x.mash_dist = b.mash_dist) := by
  have hpair : (b :: rest).Pairwise (fun x y => hitLe x y = true) :=
    hsort ▸ sortedHits_pairwise hits
  have hlow : ∀ x ∈ b :: rest, pyStrLt x.mash_dist b.mash_dist = false := by
    intro x hx
    rcases List.mem_cons.mp hx with rfl | hx'
    · exact pyStrLt_irrefl _
    · have hle : hitLe b x = true := List.rel_of_pairwise_cons hpair hx'
      simpa [hitLe] using hle
  have h1 : b :: takeSame b rest =
      (b :: rest).takeWhile (fun x => x.mash_dist = b.mash_dist) := by
    rw [List.takeWhile_cons]
    simp [takeSame_eq_takeWhile]
  have h2 : (b :: rest).takeWhile (fun x => x.mash_dist = b.mash_dist) =
      (b :: rest).filter (fun x => x.mash_dist = b.mash_dist) :=
    takeWhile_eq_filter_sorted hpair hlow
  have hmemP : ∀ x ∈ hits.filter (fun x => x.mash_dist = b.mash_dist),
      x.mash_dist = b.mash_dist := by
    intro x hx
    exact of_decide_eq_true (List.mem_filter.mp hx).2
  have hpairS : (hits.filter (fun x => x.mash_dist = b.mash_dist)).Pairwise
      (fun x y => hitLe x y = true) :=
    List.pairwise_of_forall_mem_list (fun x hx y hy =>
      hitLe_of_dist_eq ((hmemP x hx).trans (hmemP y hy).symm))
  have hsub : hits.filter (fun x => x.mash_dist = b.mash_dist) <+ sortedHits hits :=
    List.sublist_mergeSort hitLe_trans hitLe_total hpairS (List.filter_sublist hits)
  have hself : (hits.filter (fun x => x.mash_dist = b.mash_dist)).filter
      (fun x => x.mash_dist = b.mash_dist) =
      hits.filter (fun x => x.mash_dist = b.mash_dist) :=
    List.filter_eq_self.mpr (fun x hx => decide_eq_true (hmemP x hx))
  have hsub2 : hits.filter (fun x => x.mash_dist = b.mash_dist) <+
      (sortedHits hits).filter (fun x => x.mash_dist = b.mash_dist) := by
    have := hsub.filter (fun x => x.mash_dist = b.mash_dist)
    rwa [hself] at this
  have hlen : (hits.filter (fun x => x.mash_dist = b.mash_dist)).length =
      ((sortedHits hits).filter (fun x => x.mash_dist = b.mash_dist)).length :=
    (((sortedHits_perm hits).filter _).length_eq).symm
  have h3 : hits.filter (fun x => x.mash_dist = b.mash_dist) =
      (sortedHits hits).filter (fun x => x.mash_dist = b.mash_dist) :=
    hsub2.eq_of_length hlen
  rw [h1, h2, ← hsort, ← h3]

/-- C1.  For every non-empty list of hits, `get_best_hits` in `standard` mode
returns the maximal prefix of the stable ascending-by-distance sort of the
input whose `mash_dist` equals the first (lowest) element's exactly; by
stability, that tie group is the input filtered to the minimal distance, in
original relative order. -/
theorem standard_mode_best_hits (hits : List MashHit) (n : Int) (hne : hits ≠ []) :
    ∃ b rest,
      sortedHits hits = b :: rest ∧
      sortedHits hits ~ hits ∧
      (sortedHits hits).Pairwise (fun x y => hitLe x y = true) ∧
      get_best_hits hits "standard" n =
        some ((sortedHits hits).takeWhile (fun x => x.mash_dist = b.mash_dist)) ∧
      (sortedHits hits).takeWhile (fun x => x.mash_dist = b.mash_dist) <+: sortedHits hits ∧
      (∀ x ∈ (sortedHits hits).takeWhile (fun x => x.mash_dist = b.mash_dist),
        x.mash_dist = b.mash_dist) ∧
      (∀ p, p <+: sortedHits hits → (∀ x ∈ p, x.mash_dist = b.mash_dist) →
        p <+: (sortedHits hits).takeWhile (fun x => x.mash_dist = b.mash_dist)) ∧
      get_best_hits hits "standard" n =
        some (hits.filter (fun x => x.mash_dist = b.mash_dist)) := by
  have hperm := sortedHits_perm hits
  obtain ⟨b, rest, hsort⟩ : ∃ b rest, sortedHits hits = b :: rest := by
    cases hs : sortedHits hits with
    | nil => exact absurd ((hs ▸ hperm).symm.eq_nil ▸ rfl) hne
    | cons b rest => exact ⟨b, rest, rfl⟩
  have hget : get_best_hits hits "standard" n = some (b :: takeSame b rest) := by
    simp [get_best_hits, hne, hsort]
  have hTW : b :: takeSame b rest =
      (sortedHits hits).takeWhile (fun x => x.mash_dist = b.mash_dist) := by
    rw [hsort, List.takeWhile_cons]
    simp [takeSame_eq_takeWhile]
  refine ⟨b, rest, hsort, hperm, sortedHits_pairwise hits, hTW ▸ hget, List.takeWhile_prefix _,
    ?_, ?_, ?_⟩
  · intro x hx
    exact of_decide_eq_true
      (mem_takeWhile_pred (fun y : MashHit => decide (y.mash_dist = b.mash_dist))
        (sortedHits hits) x hx)
  · intro p hp hall
    exact prefix_takeWhile_of_all hp (fun x hx => decide_eq_true (hall x hx))
  · rw [hget, standard_result_eq_filter hsort]

/-- Witness for C1 at the spec's example input (distances 0.1, 0.1, 0.2). -/
theorem standard_mode_best_hits_witness :
    ∃ b rest,
      sortedHits [hitA, hitB, hitC] = b :: rest ∧
      sortedHits [hitA, hitB, hitC] ~ [hitA, hitB, hitC] ∧
      (sortedHits [hitA, hitB, hitC]).Pairwise (fun x y => hitLe x y = true) ∧
      get_best_hits [hitA, hitB, hitC] "standard" 1 =
        some ((sortedHits [hitA, hitB, hitC]).takeWhile
          (fun x => x.mash_dist = b.mash_dist)) ∧
      (sortedHits [hitA, hitB, hitC]).takeWhile (fun x => x.mash_dist = b.mash_dist) <+:
        sortedHits [hitA, hitB, hitC] ∧
      (∀ x ∈ (sortedHits [hitA, hitB, hitC]).takeWhile
          (fun x => x.mash_dist = b.mash_dist), x.mash_dist = b.mash_dist) ∧
      (∀ p, p <+: sortedHits [hitA, hitB, hitC] → (∀ x ∈ p, x.mash_dist = b.mash_dist) →
        p <+: (sortedHits [hitA, hitB, hitC]).takeWhile
          (fun x => x.mash_dist = b.mash_dist)) ∧
      get_best_hits [hitA, hitB, hitC] "standard" 1 =
        some ([hitA, hitB, hitC].filter (fun x => x.mash_dist = b.mash_dist)) :=
  standard_mode_best_hits [hitA, hitB, hitC] 1 (by decide)

/-- C2 (amended).  For every list of hits and every integer `n ≥ 0`,
`get_best_hits` in `best_n` mode returns the first `n` elements of the stable
ascending-by-distance sort; all hits when `n` is at least the number of hits;
the empty sequence when `n = 0`.  (For `n < 0` the claim fails: Python's
slice `sorted_hits[:n]` then drops only the last `|n|` elements, see the
counterexample.) -/
theorem best_n_mode_hits (hits : List MashHit) (n : Int) (hn : 0 ≤ n) :
    sortedHits hits ~ hits ∧
    (sortedHits hits).Pairwise (fun x y => hitLe x y = true) ∧
    get_best_hits hits "best_n" n = some ((sortedHits hits).take n.toNat) ∧
    ((hits.length : Int) ≤ n → get_best_hits hits "best_n" n = some (sortedHits hits)) ∧
    (n = 0 → get_best_hits hits "best_n" n = some []) := by
  have hslice : pySliceTo (sortedHits hits) n = (sortedHits hits).take n.toNat := by
    rw [pySliceTo, if_pos hn]
  have hmain : get_best_hits hits "best_n" n = some ((sortedHits hits).take n.toNat) := by
    by_cases hne : hits = []
    · subst hne
      simp [get_best_hits, sortedHits]
    · simp [get_best_hits, hne, hslice]
  refine ⟨sortedHits_perm hits, sortedHits_pairwise hits, hmain, ?_, ?_⟩
  · intro hlen
    have hle : (sortedHits hits).length ≤ n.toNat := by
      have hl := (sortedHits_perm hits).length_eq
      omega
    rw [hmain, List.take_of_length_le hle]
  · intro h0
    subst h0
    simpa using hmain

/-- Counterexample to C2 as stated: for `n = -1 ≤ 0` the result is not the
empty sequence; Python's slice keeps all but the last element. -/
theorem best_n_negative_counterexample :
    (-1 : Int) ≤ 0 ∧
    get_best_hits [hitA, hitB, hitC] "best_n" (-1) = some [hitA, hitB] ∧
    get_best_hits [hitA, hitB, hitC] "best_n" (-1) ≠ some [] := by
  refine ⟨by norm_num, ?_, ?_⟩ <;>
    simp [get_best_hits, sortedHits, List.mergeSort, hitA, hitB, hitC, hitLe, pyStrLt,
      pySliceTo, takeSame]

/-- Witness for C2 (amended) at `n = 2` on distances `[0.2, 0.1, 0.1]`. -/
theorem best_n_mode_hits_witness :
    sortedHits [hitC, hitA, hitB] ~ [hitC, hitA, hitB] ∧
    (sortedHits [hitC, hitA, hitB]).Pairwise (fun x y => hitLe x y = true) ∧
    get_best_hits [hitC, hitA, hitB] "best_n" 2 =
      some ((sortedHits [hitC, hitA, hitB]).take (Int.toNat 2)) ∧
    (([hitC, hitA, hitB].length : Int) ≤ 2 →
      get_best_hits [hitC, hitA, hitB] "best_n" 2 = some (sortedHits [hitC, hitA, hitB])) ∧
    ((2 : Int) = 0 → get_best_hits [hitC, hitA, hitB] "best_n" 2 = some []) :=
  best_n_mode_hits [hitC, hitA, hitB] 2 (by norm_num)

/-- C8.  The source's `get_best_hits` falls off the end for an unrecognized
mode: on a non-empty hit list with a mode that is neither `standard` nor
`best_n` it silently returns Python `None` instead of failing fast. -/
theorem unknown_mode_returns_none :
    [hitA] ≠ ([] : List MashHit) ∧ "bogus" ≠ "standard" ∧ "bogus" ≠ "best_n" ∧
    get_best_hits [hitA] "bogus" 1 = none := by decide

/-- C3.  Any data line with the wrong field count (≠ 4 for the sketch
listing, ≠ 5 for the distance listing, or a hash ratio without exactly two
`/`-parts) makes the whole parse raise the format `ValueError`: no records
are returned at all. -/
theorem parsers_reject_bad_lines :
    (∀ text : Str, text ≠ [] →
      (∃ r ∈ (splitOnChar '\n' (pyRstrip text)).drop 1, infoRowBad r = true) →
      parse_mash_info text = .error infoErrMsg) ∧
    (∀ text : Str, text ≠ [] →
      (∃ r ∈ splitOnChar '\n' (pyRstrip text), distRowBad r = true) →
      parse_mash_dist text = .error distErrMsg) := by
  constructor
  · intro text hne hbad
    rw [parse_mash_info, if_neg hne]
    exact parseInfoRows_err hbad
  · intro text hne hbad
    rw [parse_mash_dist, if_neg hne]
    exact parseDistRows_err hbad

/-- Witness for C3: a 3-field data line in the sketch listing, and a
slash-free hash ratio in the distance listing, each abort the parse. -/
theorem parsers_reject_bad_lines_witness :
    parse_mash_info "hdr\n1\t2\tA".toList = .error infoErrMsg ∧
    parse_mash_dist "r1\tq1\t0.1\t0.5\t3-10".toList = .error distErrMsg :=
  ⟨parsers_reject_bad_lines.1 "hdr\n1\t2\tA".toList (by decide) (by decide),
   parsers_reject_bad_lines.2 "r1\tq1\t0.1\t0.5\t3-10".toList (by decide) (by decide)⟩

/-- C4.  For every well-formed sketch listing (header plus `k` data lines of
exactly 4 tab-separated fields), `parse_mash_info` returns exactly the `k`
records in input order; and the empty input yields `[]`, not an error. -/
theorem parse_mash_info_wellformed (header : Str) (rows : List Sketch)
    (hheader : '\n' ∉ header)
    (hfields : ∀ s ∈ rows, sketchFieldsOk s)
    (hstrip : pyRstrip (infoText header rows) = infoText header rows) :
    parse_mash_info (infoText header rows) = .ok rows ∧
    (parse_mash_info (infoText header rows)).map List.length = .ok rows.length ∧
    parse_mash_info [] = .ok [] := by
  have hmain : parse_mash_info (infoText header rows) = .ok rows := by
    by_cases htext : infoText header rows = []
    · cases rows with
      | nil =>
        rw [htext]
        rfl
      | cons r rest =>
        exact absurd htext (by simp [infoText, joinWithChar])
    · rw [parse_mash_info, if_neg htext, hstrip, infoText,
        splitOnChar_joinWithChar (by simp) ?parts]
      case parts =>
        intro p hp
        rcases List.mem_cons.mp hp with rfl | hp'
        · exact hheader
        · obtain ⟨s, hs, rfl⟩ := List.mem_map.mp hp'
          intro hmem
          rcases mem_joinWithChar hmem with he | ⟨f, hf, hcf⟩
          · exact absurd he (by decide)
          · obtain ⟨hn1, hn2, hn3, hn4⟩ := (hfields s hs).2
            simp only [List.mem_cons, List.not_mem_nil, or_false] at hf
            rcases hf with rfl | rfl | rfl | rfl <;> [exact hn1 hcf; exact hn2 hcf;
              exact hn3 hcf; exact hn4 hcf]
      rw [List.drop_one, List.tail_cons]
      exact parseInfoRows_ok hfields
  exact ⟨hmain, by rw [hmain]; rfl, rfl⟩

/-- Witness for C4: a two-record listing parses to those two records. -/
theorem parse_mash_info_wellformed_witness :
    parse_mash_info (infoText "#hashes\tlength\tID\tcomment".toList
      [⟨"1000".toList, "5000".toList, "A".toList, "a genome".toList⟩,
       ⟨"1000".toList, "6000".toList, "B".toList, "b genome".toList⟩]) =
      .ok [⟨"1000".toList, "5000".toList, "A".toList, "a genome".toList⟩,
           ⟨"1000".toList, "6000".toList, "B".toList, "b genome".toList⟩] :=
  (parse_mash_info_wellformed _ _ (by decide) (by decide) (by decide)).1

/-- C5.  For every well-formed distance listing (`k` lines of exactly 5
tab-separated fields whose fifth field is `matching/total`),
`parse_mash_dist` returns exactly the `k` records in input order, with the
two hash counts taken from the two `/`-parts; empty input yields `[]`. -/
theorem parse_mash_dist_wellformed (rows : List MashHit)
    (hfields : ∀ x ∈ rows, hitFieldsOk x)
    (hstrip : pyRstrip (distText rows) = distText rows) :
    parse_mash_dist (distText rows) = .ok rows ∧
    (parse_mash_dist (distText rows)).map List.length = .ok rows.length ∧
    parse_mash_dist [] = .ok [] := by
  have hmain : parse_mash_dist (distText rows) = .ok rows := by
    by_cases htext : distText rows = []
    · cases rows with
      | nil => rfl
      | cons r rest =>
        -- a data line always contains a tab and a slash, so the text is
        -- never empty when there is at least one record
        cases rest with
        | nil =>
          exact absurd htext (by
            simp [distText, distLine, joinWithChar, List.append_eq_nil])
        | cons r2 rest2 =>
          exact absurd htext (by
            simp [distText, joinWithChar, List.append_eq_nil])
    · rw [parse_mash_dist, if_neg htext, hstrip, distText]
      cases rows with
      | nil => exact absurd rfl htext
      | cons r rest =>
        rw [splitOnChar_joinWithChar (by simp) ?parts]
        case parts =>
          intro p hp
          obtain ⟨x, hx, rfl⟩ := List.mem_map.mp hp
          intro hmem
          rcases mem_joinWithChar hmem with he | ⟨f, hf, hcf⟩
          · exact absurd he (by decide)
          · obtain ⟨-, ⟨hn1, hn2, hn3, hn4, hn5, hn6⟩, -⟩ := hfields x hx
            simp only [List.mem_cons, List.not_mem_nil, or_false] at hf
            rcases hf with rfl | rfl | rfl | rfl | rfl
            · exact hn1 hcf
            · exact hn2 hcf
            · exact hn3 hcf
            · exact hn4 hcf
            · rcases List.mem_append.mp hcf with hm | hm
              · exact hn5 hm
              · rcases List.mem_cons.mp hm with he' | hm'
                · exact absurd he' (by decide)
                · exact hn6 hm'
        exact parseDistRows_ok hfields
  exact ⟨hmain, by rw [hmain]; rfl, rfl⟩

/-- Witness for C5: a two-record listing parses to those two records. -/
theorem parse_mash_dist_wellformed_witness :
    parse_mash_dist (distText [hitA, hitC]) = .ok [hitA, hitC] :=
  (parse_mash_dist_wellformed [hitA, hitC] (by decide) (by decide)).1

theorem collectMissing_eq_filter_map (models : List Str) (sketches : List Sketch) :
    collectMissing models sketches =
      (sketches.filter (fun s => s.sketch_id ∉ models)).map Sketch.sketch_id := by
  induction sketches with
  | nil => rfl
  | cons s rest ih =>
    by_cases hm : s.sketch_id ∈ models
    · simp [collectMissing, hm, List.filter_cons, ih]
    · simp [collectMissing, hm, List.filter_cons, ih]

theorem collectMissing_eq_nil_iff (models : List Str) (sketches : List Sketch) :
    collectMissing models sketches = [] ↔ ∀ s ∈ sketches, s.sketch_id ∈ models := by
  induction sketches with
  | nil => simp [collectMissing]
  | cons s rest ih =>
    by_cases hm : s.sketch_id ∈ models
    · simp [collectMissing, hm, ih]
    · simp [collectMissing, hm]

/-- C6.  `check_models` raises `FileNotFoundError` iff some sketch id has no
model entry; the raised message lists the first 10 missing ids in supply
order; otherwise it succeeds silently. -/
theorem check_models_spec (models_path : Str) (models : List Str) (sketches : List Sketch) :
    (check_models models_path models sketches = .ok () ↔
      ∀ s ∈ sketches, s.sketch_id ∈ models) ∧
    collectMissing models sketches =
      (sketches.filter (fun s => s.sketch_id ∉ models)).map Sketch.sketch_id ∧
    (collectMissing models sketches ≠ [] →
      check_models models_path models sketches =
        .error (missingMsg models_path ((collectMissing models sketches).take 10))) := by
  refine ⟨?_, collectMissing_eq_filter_map models sketches, ?_⟩
  · by_cases hnil : collectMissing models sketches = []
    · exact iff_of_true (by simp [check_models, hnil])
        ((collectMissing_eq_nil_iff models sketches).mp hnil)
    · simp only [check_models, if_neg hnil]
      constructor
      · intro h
        exact absurd h (by simp)
      · intro hall
        exact absurd ((collectMissing_eq_nil_iff models sketches).mpr hall) hnil
  · intro hnil
    simp [check_models, hnil]

/-- Witness for C6 at the spec's example: models `{A, B}`, sketches `A, C`;
the check raises naming exactly `C`. -/
theorem check_models_spec_witness :
    collectMissing ["A".toList, "B".toList]
      [⟨"1000".toList, "5000".toList, "A".toList, "a".toList⟩,
       ⟨"1000".toList, "6000".toList, "C".toList, "c".toList⟩] ≠ [] ∧
    check_models "data/models".toList ["A".toList, "B".toList]
      [⟨"1000".toList, "5000".toList, "A".toList, "a".toList⟩,
       ⟨"1000".toList, "6000".toList, "C".toList, "c".toList⟩] =
      .error (missingMsg "data/models".toList
        ((collectMissing ["A".toList, "B".toList]
          [⟨"1000".toList, "5000".toList, "A".toList, "a".toList⟩,
           ⟨"1000".toList, "6000".toList, "C".toList, "c".toList⟩]).take 10)) :=
  ⟨by decide, (check_models_spec "data/models".toList _ _).2.2 (by decide)⟩

/-- Counterexample to C9 as stated: the parser happily returns hits whose
`query_id`s differ, so "every result set shares one `queryId`" fails on the
code. -/
theorem parse_mash_dist_query_id_counterexample :
    parse_mash_dist "r1\tq1\t0.1\t0.5\t3/10\nr2\tq2\t0.1\t0.5\t3/10".toList =
      .ok [⟨"r1".toList, "q1".toList, "0.1".toList, "0.5".toList, "3".toList, "10".toList⟩,
           ⟨"r2".toList, "q2".toList, "0.1".toList, "0.5".toList, "3".toList, "10".toList⟩] ∧
    ("q1".toList : Str) ≠ "q2".toList := by decide

theorem parseDistRow_query_id {row : Str} {h : MashHit}
    (hok : parseDistRow row = .ok h) :
    (splitOnChar '\t' row)[1]? = some h.query_id := by
  unfold parseDistRow at hok
  split at hok
  · rename_i a b c d e heq
    split at hok
    · injection hok with hok
      rw [heq, ← hok]
      rfl
    · exact absurd hok (by simp)
  · exact absurd hok (by simp)

theorem parseDistRows_query_id {rows : List Str} {hits : List MashHit} {q : Str}
    (hq : ∀ r ∈ rows, (splitOnChar '\t' r)[1]? = some q)
    (hok : parseDistRows rows = .ok hits) :
    ∀ h ∈ hits, h.query_id = q := by
  induction rows generalizing hits with
  | nil =>
    rw [parseDistRows] at hok
    injection hok with hok
    subst hok
    simp
  | cons r rest ih =>
    rw [parseDistRows] at hok
    cases hr : parseDistRow r with
    | error e => rw [hr] at hok; exact absurd hok (by simp)
    | ok x =>
      rw [hr] at hok
      cases hrest : parseDistRows rest with
      | error e => rw [hrest] at hok; exact absurd hok (by simp)
      | ok tailHits =>
        rw [hrest] at hok
        injection hok with hok
        subst hok
        intro h hh
        rcases List.mem_cons.mp hh with rfl | hh'
        · have h1 := parseDistRow_query_id hr
          have h2 := hq r (by simp)
          rw [h1] at h2
          injection h2
        · exact ih (fun y hy => hq y (List.mem_cons_of_mem _ hy)) hrest h hh'

/-- C9 (amended).  Every hit's `query_id` is the second tab field of its
line; hence when every line of the (stripped) input has the same second tab
field `q` — as in the output of a single-query `mash dist` run — all parsed
hits share `query_id = q`.  The parser itself does not enforce this. -/
theorem parse_mash_dist_query_id_uniform (text : Str) (q : Str) (hits : List MashHit)
    (hq : ∀ r ∈ splitOnChar '\n' (pyRstrip text), (splitOnChar '\t' r)[1]? = some q)
    (hok : parse_mash_dist text = .ok hits) :
    ∀ h ∈ hits, h.query_id = q := by
  by_cases hne : text = []
  · rw [parse_mash_dist, if_pos hne] at hok
    injection hok with hok
    subst hok
    simp
  · rw [parse_mash_dist, if_neg hne] at hok
    exact parseDistRows_query_id hq hok

/-- Witness for C9 (amended): two lines sharing the query field `q` parse to
hits that both carry `query_id = q`. -/
theorem parse_mash_dist_query_id_uniform_witness :
    (⟨"r1".toList, "q".toList, "0.1".toList, "0.5".toList, "3".toList,
      "10".toList⟩ : MashHit).query_id = "q".toList ∧
    (⟨"r2".toList, "q".toList, "0.2".toList, "0.5".toList, "2".toList,
      "10".toList⟩ : MashHit).query_id = "q".toList :=
  ⟨parse_mash_dist_query_id_uniform
      "r1\tq\t0.1\t0.5\t3/10\nr2\tq\t0.2\t0.5\t2/10".toList "q".toList
      [⟨"r1".toList, "q".toList, "0.1".toList, "0.5".toList, "3".toList, "10".toList⟩,
       ⟨"r2".toList, "q".toList, "0.2".toList, "0.5".toList, "2".toList, "10".toList⟩]
      (by decide) (by decide) _ (by decide),
   parse_mash_dist_query_id_uniform
      "r1\tq\t0.1\t0.5\t3/10\nr2\tq\t0.2\t0.5\t2/10".toList "q".toList
      [⟨"r1".toList, "q".toList, "0.1".toList, "0.5".toList, "3".toList, "10".toList⟩,
       ⟨"r2".toList, "q".toList, "0.2".toList, "0.5".toList, "2".toList, "10".toList⟩]
      (by decide) (by decide) _ (by decide)⟩

/-- C10.  A non-empty input made only of whitespace strips to nothing:
`parse_mash_dist` then chokes on the single empty line (1 field ≠ 5), while
`parse_mash_info` discards that line as the header and returns `[]`. -/
theorem whitespace_only_input_parsers (s : Str) (hne : s ≠ [])
    (hws : ∀ c ∈ s, pyWhitespace c = true) :
    parse_mash_dist s = .error distErrMsg ∧ parse_mash_info s = .ok [] := by
  have hstrip : pyRstrip s = [] := by
    unfold pyRstrip
    have hd : s.reverse.dropWhile pyWhitespace = [] :=
      List.dropWhile_eq_nil_iff.mpr (fun x hx => hws x (List.mem_reverse.mp hx))
    rw [hd]
    rfl
  constructor
  · rw [parse_mash_dist, if_neg hne, hstrip]
    rfl
  · rw [parse_mash_info, if_neg hne, hstrip]
    rfl

/-- Witness for C10 at `" \n "` (space, newline, space). -/
theorem whitespace_only_input_parsers_witness :
    parse_mash_dist " \n ".toList = .error distErrMsg ∧
    parse_mash_info " \n ".toList = .ok [] :=
  whitespace_only_input_parsers " \n ".toList (by decide) (by decide)

theorem distPhase_emit_ok (distOut : ToolOutcome) (mode : String) (n : Int) :
    (∃ ls, Event.emit ls ∈ (distPhase distOut mode n).1) →
    (distPhase distOut mode n).2 = .ok () := by
  intro ⟨ls, hmem⟩
  unfold distPhase at hmem ⊢
  split at hmem
  · simp at hmem
  · rename_i hits heq
    split at hmem <;> rfl

/-- C7.  With the check flag set, a missing-model failure aborts the pipeline
before `mash dist` is ever run, propagating the error unchanged; and on every
failure path of the pipeline, no hits are emitted. -/
theorem select_models_spec :
    (∀ (models_path : Str) (models : List Str) (out : Str) (distOut : ToolOutcome)
        (mode : String) (n : Int) (sketches : List Sketch) (m : Str),
      parse_mash_info out = .ok sketches →
      check_models models_path models sketches = .error m →
      select_models true models_path models (.ok out) distOut mode n =
        ([Event.mashInfo], .error (.missingModel m)) ∧
      Event.mashDist ∉ (select_models true models_path models (.ok out) distOut mode n).1 ∧
      ∀ ls, Event.emit ls ∉
        (select_models true models_path models (.ok out) distOut mode n).1) ∧
    (∀ (check : Bool) (models_path : Str) (models : List Str)
        (infoOut distOut : ToolOutcome) (mode : String) (n : Int) (e : PipeErr),
      (select_models check models_path models infoOut distOut mode n).2 = .error e →
      ∀ ls, Event.emit ls ∉
        (select_models check models_path models infoOut distOut mode n).1) := by
  constructor
  · intro mp models out distOut mode n sketches m hparse hcheck
    have hcs : checkStepRun true mp models (.ok out) = .error (.missingModel m) := by
      simp [checkStepRun, run_mash_info, hparse, hcheck]
    have hsel : select_models true mp models (.ok out) distOut mode n =
        ([Event.mashInfo], .error (.missingModel m)) := by
      simp [select_models, hcs]
    refine ⟨hsel, ?_, ?_⟩
    · rw [hsel]
      simp
    · intro ls
      rw [hsel]
      simp
  · intro check mp models infoOut distOut mode n e herr ls hmem
    have hce : ∀ ls2, Event.emit ls2 ∉ (if check then [Event.mashInfo] else []) := by
      intro ls2
      by_cases hc : check <;> simp [hc]
    cases hcs : checkStepRun check mp models infoOut with
    | error e2 =>
      rw [select_models] at hmem
      rw [hcs] at hmem
      simp only at hmem
      exact hce ls hmem
    | ok u =>
      cases u
      rw [select_models] at hmem herr
      rw [hcs] at hmem herr
      simp only at hmem herr
      rcases List.mem_append.mp hmem with hmem1 | hmem2
      · exact hce ls hmem1
      · have hok := distPhase_emit_ok distOut mode n ⟨ls, hmem2⟩
        rw [herr] at hok
        exact absurd hok (by simp)

/-- Witness for C7: models `{A}` with a sketch listing naming `C`; the
pipeline stops at the consistency check with the `FileNotFoundError`, never
running `mash dist` and emitting nothing; and at that failing input the
error outcome indeed comes with an emit-free trace. -/
theorem select_models_spec_witness :
    (select_models true "data/models".toList ["A".toList]
        (.ok "hdr\n1000\t5000\tC\tc genome".toList) (.fail 1 []) "standard" 1 =
      ([Event.mashInfo],
        .error (.missingModel (missingMsg "data/models".toList ["C".toList]))) ∧
     Event.mashDist ∉ (select_models true "data/models".toList ["A".toList]
        (.ok "hdr\n1000\t5000\tC\tc genome".toList) (.fail 1 []) "standard" 1).1 ∧
     ∀ ls, Event.emit ls ∉ (select_models true "data/models".toList ["A".toList]
        (.ok "hdr\n1000\t5000\tC\tc genome".toList) (.fail 1 []) "standard" 1).1) ∧
    (∀ ls, Event.emit ls ∉ (select_models true "data/models".toList ["A".toList]
        (.ok "hdr\n1000\t5000\tC\tc genome".toList) (.fail 1 []) "standard" 1).1) :=
  ⟨select_models_spec.1 "data/models".toList ["A".toList]
      "hdr\n1000\t5000\tC\tc genome".toList (.fail 1 []) "standard" 1
      [⟨"1000".toList, "5000".toList, "C".toList, "c genome".toList⟩]
      (missingMsg "data/models".toList ["C".toList]) (by decide) (by decide),
   select_models_spec.2 true "data/models".toList ["A".toList]
      (.ok "hdr\n1000\t5000\tC\tc genome".toList) (.fail 1 []) "standard" 1
      (.missingModel (missingMsg "data/models".toList ["C".toList])) (by decide)⟩
